import Mathlib

/-!
Shallow embedding of the baseline-cache backend (`src/app.py`).

The program is a small web backend with a process-wide mutable cache
`TEMP_FILE_CACHE : dict id -> {path, timestamp}`, a scratch filesystem of
temporary PDF files, and an external transform (`ghostscript`) invoked as a
subprocess.  We model the observable state as:

  * `cache` — the `TEMP_FILE_CACHE` dictionary, as an association list from
    string ids to `CacheEntry` records (Python dict keys are unique; where a
    theorem needs that, it carries a `keysNodup` hypothesis);
  * `files` — the set of scratch-file paths currently existing on disk,
    as a duplicate-free list of path strings (`os.path.exists` is membership,
    `os.remove` deletes the path, writing a file inserts it);
  * `gsLog` — the list of transform invocations performed so far, each
    recording the input path, the output path and the resolution argument
    (`run_ghostscript(input_path, output_path, resolution)` in the source).

The external transform's outcome is an input of each modelled operation
(`GsOutcome`): it either succeeds (and then the output file exists), or
raises (`subprocess.CalledProcessError` or `subprocess.TimeoutExpired`,
both caught by the generic `except Exception` blocks of the source), in
which case it may or may not have already created the output file.
Fallible code is modelled with `Option`: a `none` result of `evictStep`
stands for the uncaught `KeyError` raised by `TEMP_FILE_CACHE[file_id]`.
Time is an integer number of seconds (`time.time()`).
-/

namespace NewBackend

/-- One value of `TEMP_FILE_CACHE`: `{'path': ..., 'timestamp': ...}`
(src/app.py line 72). -/
structure CacheEntry where
  path : String
  timestamp : Int
deriving DecidableEq, Repr

/-- One recorded invocation of `run_ghostscript(input_path, output_path,
resolution)` (src/app.py lines 37-45). -/
structure GsCall where
  input : String
  output : String
  resolution : Int
deriving DecidableEq, Repr

/-- The observable state: the `TEMP_FILE_CACHE` dict, the scratch
filesystem, and the log of transform invocations. -/
structure SysState where
  cache : List (String × CacheEntry)
  files : List String
  gsLog : List GsCall
deriving DecidableEq, Repr

/-- `CACHE_EXPIRATION_SECONDS = 3600` (src/app.py line 20). -/
def CACHE_EXPIRATION_SECONDS : Int := 3600

/-- Outcome of one external transform invocation.  `fail wroteOutput` covers
both a non-zero exit and a timeout (the source catches both with a generic
`except Exception`); `wroteOutput` records whether the killed/failed process
had already created (part of) the output file. -/
inductive GsOutcome where
  | ok : GsOutcome
  | fail (wroteOutput : Bool) : GsOutcome
deriving DecidableEq, Repr

/-- Python dict lookup `d[k]` / `k in d` support: first binding of the key
in the association list. -/
def lookupCache : List (String × CacheEntry) → String → Option CacheEntry
  | [], _ => none
  | (k, e) :: rest, fid => if k = fid then some e else lookupCache rest fid

/-- Python `del d[k]`: drop every binding of the key. -/
def removeKey : List (String × CacheEntry) → String → List (String × CacheEntry)
  | [], _ => []
  | (k, e) :: rest, fid =>
      if k = fid then removeKey rest fid else (k, e) :: removeKey rest fid

/-- Python dict assignment `d[k] = v`. -/
def setKey (c : List (String × CacheEntry)) (fid : String) (e : CacheEntry) :
    List (String × CacheEntry) :=
  (fid, e) :: removeKey c fid

/-- `os.remove(p)` on the path-set model of the scratch filesystem. -/
def removePath : List String → String → List String
  | [], _ => []
  | q :: rest, p => if q = p then removePath rest p else q :: removePath rest p

/-- The guarded delete idiom of the source:
`if os.path.exists(p): os.remove(p)` (src/app.py lines 90-91, 123-124,
139-140). -/
def removeIfExists (fs : List String) (p : String) : List String :=
  if p ∈ fs then removePath fs p else fs

/-- Creating/writing a file at path `p`. -/
def createFile (fs : List String) (p : String) : List String :=
  if p ∈ fs then fs else p :: fs

/-- Dict keys of the cache are pairwise distinct — inherently true of the
Python `dict` that the association list models. -/
def keysNodup (c : List (String × CacheEntry)) : Prop :=
  (c.map Prod.fst).Nodup

/-- Backing paths of distinct cache entries are pairwise distinct — true of
every reachable state because baseline paths come from fresh `tempfile`
names. -/
def pathsNodup (c : List (String × CacheEntry)) : Prop :=
  (c.map (fun p => p.2.path)).Nodup

instance (c : List (String × CacheEntry)) : Decidable (keysNodup c) := by
  unfold keysNodup; infer_instance

instance (c : List (String × CacheEntry)) : Decidable (pathsNodup c) := by
  unfold pathsNodup; infer_instance

/-! ## Quality selector parsing (`get_gs_resolution`, src/app.py 28-34) -/

/-- A JSON value as received for the `quality` field: an integer, a string,
`null`, or anything else (arrays/objects) on which Python's `int()` raises
`TypeError`. -/
inductive JVal where
  | jint (n : Int)
  | jstr (s : String)
  | jnull
  | jother
deriving DecidableEq, Repr

/-- Accumulate decimal digits; `none` on the first non-digit character. -/
def parseNatCore : List Char → Nat → Option Nat
  | [], acc => some acc
  | c :: cs, acc =>
      if c.isDigit then parseNatCore cs (acc * 10 + (c.toNat - 48)) else none

/-- Core of Python `int(s)` on a string: strip surrounding spaces, optional
sign, at least one decimal digit; `none` models the raised `ValueError`. -/
def pyIntString (s : String) : Option Int :=
  let cs := ((s.toList.dropWhile (· = ' ')).reverse.dropWhile (· = ' ')).reverse
  match cs with
  | [] => none
  | '-' :: rest =>
      if rest = [] then none else (parseNatCore rest 0).map (fun n => -(n : Int))
  | '+' :: rest =>
      if rest = [] then none else (parseNatCore rest 0).map (fun n => (n : Int))
  | _ => (parseNatCore cs 0).map (fun n => (n : Int))

/-- Python `int(quality_value)`: identity on integers, decimal parse on
strings (`ValueError` on failure), `TypeError` on `null` and other shapes;
`none` models the raised exception, which the source catches. -/
def pyInt : JVal → Option Int
  | .jint n => some n
  | .jstr s => pyIntString s
  | .jnull => none
  | .jother => none

/-- `dpi_map` literal of `get_gs_resolution` (src/app.py line 33). -/
def dpi_map : List (Int × Int) :=
  [(1, 72), (2, 96), (3, 120), (4, 150), (5, 200),
   (6, 250), (7, 300), (8, 400), (9, 500), (10, 600)]

/-- Lookup in the integer dict literal (`dpi_map.get(quality, 300)`). -/
def lookupInt : List (Int × Int) → Int → Option Int
  | [], _ => none
  | (k, v) :: rest, q => if k = q then some v else lookupInt rest q

/-- `get_gs_resolution(quality_value)` (src/app.py lines 28-34):
`try: quality = int(quality_value) except (ValueError, TypeError): return
300`, then `dpi_map.get(quality, 300)`. -/
def get_gs_resolution (quality_value : JVal) : Int :=
  match pyInt quality_value with
  | none => 300
  | some quality => (lookupInt dpi_map quality).getD 300

/-! ## Transform invocation (`run_ghostscript`, src/app.py 37-45) -/

/-- Effect of `run_ghostscript(input, output, resolution)` under outcome
`gs`: the invocation is logged; on success the output file exists; on
failure the output file exists iff the failed process had written it.  The
returned `Bool` is `true` iff the call returned normally. -/
def run_ghostscript (s : SysState) (input output : String) (resolution : Int)
    (gs : GsOutcome) : SysState × Bool :=
  match gs with
  | .ok =>
      ({ s with files := createFile s.files output,
                gsLog := s.gsLog ++ [⟨input, output, resolution⟩] }, true)
  | .fail wrote =>
      ({ s with files := if wrote then createFile s.files output else s.files,
                gsLog := s.gsLog ++ [⟨input, output, resolution⟩] }, false)

/-! ## `compress_initial` (src/app.py 48-91) -/

/-- Request data and environment for one `compress_initial` call: whether
the multipart form has a `pdf` part, the fresh temp path of the saved
upload, the fresh `tempfile.mktemp` baseline path, the fresh
`uuid.uuid4()` id, the current time, and the transform outcome. -/
structure UploadReq where
  hasPdf : Bool
  original_path : String
  baseline_path : String
  file_id : String
  now : Int
  gs : GsOutcome
deriving DecidableEq, Repr

/-- Responses of `compress_initial`: 400 when the `pdf` part is missing,
200 with the fresh id on success, 500 on any caught exception. -/
inductive CResp where
  | badRequest
  | created (file_id : String)
  | serverError
deriving DecidableEq, Repr

/-- `compress_initial()` (src/app.py 48-91): save the upload to
`original_path`; reserve `baseline_path` (`mktemp` creates no file); run
ghostscript at the fixed resolution 300; on success register
`{'path': baseline_path, 'timestamp': now}` under the fresh id and answer
200; on failure answer 500; `finally:` remove `original_path` if it
exists. -/
def compress_initial (s : SysState) (r : UploadReq) : CResp × SysState :=
  if r.hasPdf = false then
    (CResp.badRequest, s)
  else
    let s0 : SysState := { s with files := createFile s.files r.original_path }
    match r.gs with
    | .ok =>
        let s1 := (run_ghostscript s0 r.original_path r.baseline_path 300 .ok).1
        let s2 : SysState :=
          { s1 with cache := setKey s1.cache r.file_id ⟨r.baseline_path, r.now⟩ }
        let s3 : SysState := { s2 with files := removeIfExists s2.files r.original_path }
        (CResp.created r.file_id, s3)
    | .fail wrote =>
        let s1 := (run_ghostscript s0 r.original_path r.baseline_path 300 (.fail wrote)).1
        let s2 : SysState := { s1 with files := removeIfExists s1.files r.original_path }
        (CResp.serverError, s2)

/-! ## `adjust_and_download` (src/app.py 94-124) -/

/-- Request data and environment for one `adjust_and_download` call:
`data.get('file_id')`, `data.get('quality', '7')` (with `none` when the
JSON body omits the key), the fresh `tempfile.mktemp` output path, and the
transform outcome. -/
structure AdjustReq where
  file_id : Option String
  quality : Option JVal
  adjusted_path : String
  gs : GsOutcome
deriving DecidableEq, Repr

/-- Responses of `adjust_and_download`: 404 for a missing/unknown id, the
PDF attachment named `compressed-{resolution}dpi.pdf` on success, 500 on a
caught exception. -/
inductive AResp where
  | notFound
  | fileResp (download_name : String)
  | serverError
deriving DecidableEq, Repr

/-- `adjust_and_download()` (src/app.py 94-124): take `file_id` and
`quality` (defaulting to the string `'7'`) from the JSON body; answer 404
when `file_id` is missing, empty (falsy) or not a key of the cache;
otherwise resolve the resolution, run ghostscript on the cached baseline
path into the fresh `adjusted_path`, answer with the file on success or
500 on failure, and `finally:` remove `adjusted_path` if it exists. -/
def adjust_and_download (s : SysState) (r : AdjustReq) : AResp × SysState :=
  let quality_value := r.quality.getD (JVal.jstr "7")
  match r.file_id with
  | none => (AResp.notFound, s)
  | some fid =>
      if fid = "" then (AResp.notFound, s)
      else
        match lookupCache s.cache fid with
        | none => (AResp.notFound, s)
        | some entry =>
            let resolution := get_gs_resolution quality_value
            match r.gs with
            | .ok =>
                let s1 := (run_ghostscript s entry.path r.adjusted_path resolution .ok).1
                let s2 : SysState :=
                  { s1 with files := removeIfExists s1.files r.adjusted_path }
                (AResp.fileResp ("compressed-" ++ toString resolution ++ "dpi.pdf"), s2)
            | .fail wrote =>
                let s1 :=
                  (run_ghostscript s entry.path r.adjusted_path resolution (.fail wrote)).1
                let s2 : SysState :=
                  { s1 with files := removeIfExists s1.files r.adjusted_path }
                (AResp.serverError, s2)

/-! ## `cleanup_expired_files` (src/app.py 127-141) -/

/-- Ids collected by one sweep pass:
`[fid for fid, data in cache.items() if now - data['timestamp'] > 3600]`
(src/app.py 131-134). -/
def expiredIds (now : Int) (c : List (String × CacheEntry)) : List String :=
  (c.filter (fun p => decide (CACHE_EXPIRATION_SECONDS < now - p.2.timestamp))).map Prod.fst

/-- Eviction of one collected id, exactly as the sweep loop body performs
it (src/app.py 137-141): read `TEMP_FILE_CACHE[file_id]['path']` (a
`KeyError` — modelled as `none` — if the id is absent), remove the backing
file if it exists, then `del` the mapping entry. -/
def evictStep (s : SysState) (fid : String) : Option SysState :=
  match lookupCache s.cache fid with
  | none => none
  | some e =>
      some { s with files := removeIfExists s.files e.path,
                    cache := removeKey s.cache fid }

/-- The observable intermediate point of the same loop body: after
`os.remove(file_path)` (line 140) and before `del TEMP_FILE_CACHE[file_id]`
(line 141) the backing file is gone while the mapping entry is still
present. -/
def evictMid (s : SysState) (fid : String) : Option SysState :=
  match lookupCache s.cache fid with
  | none => none
  | some e => some { s with files := removeIfExists s.files e.path }

/-- One pass of the `cleanup_expired_files` loop body (src/app.py
127-141): collect the expired ids from the current cache, then evict each
in turn.  `none` models an uncaught exception escaping the pass. -/
def cleanup_expired_files_pass (now : Int) (s : SysState) : Option SysState :=
  (expiredIds now s.cache).foldlM (fun st fid => evictStep st fid) s

/-- The cache/storage coherence invariant of the spec: every entry visible
in the mapping has existing backing storage. -/
def cacheStorageInv (s : SysState) : Prop :=
  ∀ p ∈ s.cache, p.2.path ∈ s.files

instance (s : SysState) : Decidable (cacheStorageInv s) := by
  unfold cacheStorageInv; infer_instance

/-- Iterated `del` over a list of ids: the pure-list shadow of the sweep
loop's cumulative effect on the cache mapping. -/
def removeKeys (c : List (String × CacheEntry)) (L : List String) :
    List (String × CacheEntry) :=
  L.foldl removeKey c

/-! ## Concrete states and requests, used to instantiate theorems -/

def exEntry : CacheEntry := ⟨"base.pdf", 0⟩

def exState : SysState := ⟨[("a", exEntry)], ["base.pdf"], []⟩

def exStateMid : SysState := ⟨[("a", exEntry)], [], []⟩

def exStateEvicted : SysState := ⟨[], [], []⟩

def exSweepState : SysState :=
  ⟨[("a", ⟨"pa.pdf", 0⟩), ("b", ⟨"pb.pdf", 3000⟩)], ["pa.pdf", "pb.pdf"], []⟩

def emptyState : SysState := ⟨[], [], []⟩

def exUploadOk : UploadReq := ⟨true, "orig.pdf", "base2.pdf", "id1", 5, .ok⟩

def exUploadFail : UploadReq := ⟨true, "orig.pdf", "base2.pdf", "id1", 5, .fail true⟩

def exAdjustOk : AdjustReq := ⟨some "a", some (.jint 3), "adj.pdf", .ok⟩

def exAdjustMissing : AdjustReq := ⟨some "zz", some (.jint 3), "adj.pdf", .ok⟩

def exAdjustNoQuality : AdjustReq := ⟨some "a", none, "adj.pdf", .ok⟩

end NewBackend

namespace NewBackend

/-! ## Association-list and filesystem lemma kit -/

theorem lookupCache_mem {c : List (String × CacheEntry)} {fid : String} {e : CacheEntry}
    (h : lookupCache c fid = some e) : (fid, e) ∈ c := by
  induction c with
  | nil => simp [lookupCache] at h
  | cons p rest ih =>
      obtain ⟨k, v⟩ := p
      by_cases hk : k = fid
      · subst hk
        simp [lookupCache] at h
        subst h
        exact List.mem_cons_self _ _
      · simp [lookupCache, hk] at h
        exact List.mem_cons_of_mem _ (ih h)

theorem lookupCache_isSome_of_mem_keys {c : List (String × CacheEntry)} {fid : String}
    (h : fid ∈ c.map Prod.fst) : ∃ e, lookupCache c fid = some e := by
  induction c with
  | nil => simp at h
  | cons p rest ih =>
      obtain ⟨k, v⟩ := p
      by_cases hk : k = fid
      · exact ⟨v, by simp [lookupCache, hk]⟩
      · rw [List.map_cons, List.mem_cons] at h
        rcases h with h | h
        · exact absurd h.symm hk
        · obtain ⟨e, he⟩ := ih h
          exact ⟨e, by simp [lookupCache, hk, he]⟩

theorem lookupCache_of_mem_nodup {c : List (String × CacheEntry)} (hnd : keysNodup c)
    {fid : String} {e : CacheEntry} (h : (fid, e) ∈ c) : lookupCache c fid = some e := by
  induction c with
  | nil => simp at h
  | cons p rest ih =>
      obtain ⟨k, v⟩ := p
      rcases List.mem_cons.mp h with h | h
      · obtain ⟨h1, h2⟩ := Prod.mk.injEq .. ▸ h
        simp [lookupCache, h1.symm, h2]
      · have hk : k ≠ fid := by
          intro hk
          subst hk
          have : k ∈ rest.map Prod.fst := List.mem_map.mpr ⟨(k, e), h, rfl⟩
          exact (List.nodup_cons.mp hnd).1 this
        have hrest : keysNodup rest := (List.nodup_cons.mp hnd).2
        simp [lookupCache, hk, ih hrest h]

theorem mem_removeKey {c : List (String × CacheEntry)} {fid : String}
    {p : String × CacheEntry} : p ∈ removeKey c fid ↔ p ∈ c ∧ p.1 ≠ fid := by
  induction c with
  | nil => simp [removeKey]
  | cons q rest ih =>
      obtain ⟨k, v⟩ := q
      simp only [removeKey]
      by_cases hk : k = fid
      · rw [if_pos hk, ih]
        subst hk
        constructor
        · exact fun h => ⟨List.mem_cons_of_mem _ h.1, h.2⟩
        · rintro ⟨h1, h2⟩
          rcases List.mem_cons.mp h1 with h1 | h1
          · exact absurd (congrArg Prod.fst h1) h2
          · exact ⟨h1, h2⟩
      · rw [if_neg hk]
        constructor
        · intro hmem
          rcases List.mem_cons.mp hmem with rfl | hmem
          · exact ⟨List.mem_cons_self _ _, hk⟩
          · obtain ⟨h1, h2⟩ := ih.mp hmem
            exact ⟨List.mem_cons_of_mem _ h1, h2⟩
        · rintro ⟨h1, h2⟩
          rcases List.mem_cons.mp h1 with rfl | h1
          · exact List.mem_cons_self _ _
          · exact List.mem_cons_of_mem _ (ih.mpr ⟨h1, h2⟩)

theorem removeKey_sublist (c : List (String × CacheEntry)) (fid : String) :
    List.Sublist (removeKey c fid) c := by
  induction c with
  | nil => simp [removeKey]
  | cons q rest ih =>
      obtain ⟨k, v⟩ := q
      simp only [removeKey]
      by_cases hk : k = fid
      · rw [if_pos hk]
        exact ih.cons _
      · rw [if_neg hk]
        exact ih.cons₂ _

theorem keysNodup_removeKey {c : List (String × CacheEntry)} (h : keysNodup c)
    (fid : String) : keysNodup (removeKey c fid) :=
  List.Nodup.sublist ((removeKey_sublist c fid).map Prod.fst) h

theorem lookupCache_removeKey_self (c : List (String × CacheEntry)) (fid : String) :
    lookupCache (removeKey c fid) fid = none := by
  induction c with
  | nil => rfl
  | cons q rest ih =>
      obtain ⟨k, v⟩ := q
      by_cases hk : k = fid
      · simp [removeKey, hk, ih]
      · simp [removeKey, lookupCache, hk, ih]

theorem lookupCache_removeKey_ne {c : List (String × CacheEntry)} {fid g : String}
    (h : g ≠ fid) : lookupCache (removeKey c fid) g = lookupCache c g := by
  induction c with
  | nil => rfl
  | cons q rest ih =>
      obtain ⟨k, v⟩ := q
      by_cases hk : k = fid
      · subst hk
        have : k ≠ g := fun hkg => h (hkg ▸ rfl)
        simp [removeKey, lookupCache, this, ih]
      · simp only [removeKey, if_neg hk, lookupCache]
        by_cases hkg : k = g <;> simp [hkg, ih]

theorem mem_keys_removeKey {c : List (String × CacheEntry)} {fid g : String}
    (hg : g ≠ fid) (h : g ∈ c.map Prod.fst) : g ∈ (removeKey c fid).map Prod.fst := by
  obtain ⟨pr, hpr, hfst⟩ := List.mem_map.mp h
  subst hfst
  exact List.mem_map.mpr ⟨pr, mem_removeKey.mpr ⟨hpr, hg⟩, rfl⟩

theorem lookupCache_setKey_self (c : List (String × CacheEntry)) (fid : String)
    (e : CacheEntry) : lookupCache (setKey c fid e) fid = some e := by
  simp [setKey, lookupCache]

theorem lookupCache_setKey_ne (c : List (String × CacheEntry)) {fid g : String}
    (e : CacheEntry) (h : g ≠ fid) :
    lookupCache (setKey c fid e) g = lookupCache c g := by
  have : fid ≠ g := fun hfg => h hfg.symm
  simp [setKey, lookupCache, this, lookupCache_removeKey_ne h]

theorem mem_removePath {fs : List String} {p q : String} :
    q ∈ removePath fs p ↔ q ∈ fs ∧ q ≠ p := by
  induction fs with
  | nil => simp [removePath]
  | cons r rest ih =>
      simp only [removePath]
      by_cases hr : r = p
      · rw [if_pos hr, ih]
        subst hr
        constructor
        · exact fun h => ⟨List.mem_cons_of_mem _ h.1, h.2⟩
        · rintro ⟨h1, h2⟩
          rcases List.mem_cons.mp h1 with rfl | h1
          · exact absurd rfl h2
          · exact ⟨h1, h2⟩
      · rw [if_neg hr]
        constructor
        · intro hmem
          rcases List.mem_cons.mp hmem with rfl | hmem
          · exact ⟨List.mem_cons_self _ _, hr⟩
          · obtain ⟨h1, h2⟩ := ih.mp hmem
            exact ⟨List.mem_cons_of_mem _ h1, h2⟩
        · rintro ⟨h1, h2⟩
          rcases List.mem_cons.mp h1 with rfl | h1
          · exact List.mem_cons_self _ _
          · exact List.mem_cons_of_mem _ (ih.mpr ⟨h1, h2⟩)

theorem mem_removeIfExists {fs : List String} {p q : String} :
    q ∈ removeIfExists fs p ↔ q ∈ fs ∧ q ≠ p := by
  unfold removeIfExists
  by_cases hp : p ∈ fs
  · simp [hp, mem_removePath]
  · simp only [if_neg hp]
    constructor
    · exact fun hq => ⟨hq, fun hqp => hp (hqp ▸ hq)⟩
    · exact And.left

theorem mem_createFile {fs : List String} {p q : String} :
    q ∈ createFile fs p ↔ q ∈ fs ∨ q = p := by
  unfold createFile
  by_cases hp : p ∈ fs
  · simp only [if_pos hp]
    constructor
    · exact Or.inl
    · rintro (h | rfl)
      · exact h
      · exact hp
  · simp [if_neg hp, List.mem_cons, or_comm]

end NewBackend

namespace NewBackend

/-! ## Sweep-pass machinery -/

theorem mem_removeKeys {c : List (String × CacheEntry)} {L : List String}
    {p : String × CacheEntry} : p ∈ removeKeys c L ↔ p ∈ c ∧ p.1 ∉ L := by
  induction L generalizing c with
  | nil => simp [removeKeys]
  | cons fid rest ih =>
      show p ∈ removeKeys (removeKey c fid) rest ↔ _
      rw [ih, mem_removeKey]
      simp only [List.mem_cons, not_or]
      tauto

theorem lookupCache_removeKeys (c : List (String × CacheEntry)) (L : List String)
    (g : String) :
    lookupCache (removeKeys c L) g = if g ∈ L then none else lookupCache c g := by
  induction L generalizing c with
  | nil => simp [removeKeys]
  | cons fid rest ih =>
      show lookupCache (removeKeys (removeKey c fid) rest) g = _
      rw [ih]
      by_cases hg : g ∈ rest
      · rw [if_pos hg, if_pos (List.mem_cons_of_mem _ hg)]
      · rw [if_neg hg]
        by_cases hgf : g = fid
        · subst hgf
          rw [lookupCache_removeKey_self, if_pos (List.mem_cons_self _ _)]
        · rw [lookupCache_removeKey_ne hgf,
              if_neg (by simp only [List.mem_cons, not_or]; exact ⟨hgf, hg⟩)]

theorem mem_expiredIds_of_lookup {now : Int} {c : List (String × CacheEntry)}
    {fid : String} {e : CacheEntry} (hl : lookupCache c fid = some e)
    (hexp : CACHE_EXPIRATION_SECONDS < now - e.timestamp) :
    fid ∈ expiredIds now c :=
  List.mem_map.mpr ⟨(fid, e),
    List.mem_filter.mpr ⟨lookupCache_mem hl, by simpa using hexp⟩, rfl⟩

theorem expiredIds_spec {now : Int} {c : List (String × CacheEntry)}
    (hk : keysNodup c) {fid : String} :
    fid ∈ expiredIds now c ↔
      ∃ e, lookupCache c fid = some e ∧
        CACHE_EXPIRATION_SECONDS < now - e.timestamp := by
  constructor
  · intro h
    obtain ⟨pr, hpr, hfst⟩ := List.mem_map.mp h
    obtain ⟨a, b⟩ := pr
    obtain ⟨hmem, hcond⟩ := List.mem_filter.mp hpr
    subst hfst
    exact ⟨b, lookupCache_of_mem_nodup hk hmem, by simpa using hcond⟩
  · rintro ⟨e, hl, hexp⟩
    exact mem_expiredIds_of_lookup hl hexp

theorem expiredIds_subset_keys {now : Int} {c : List (String × CacheEntry)}
    {fid : String} (h : fid ∈ expiredIds now c) : fid ∈ c.map Prod.fst := by
  obtain ⟨pr, hpr, hfst⟩ := List.mem_map.mp h
  exact List.mem_map.mpr ⟨pr, (List.mem_filter.mp hpr).1, hfst⟩

theorem expiredIds_nodup {now : Int} {c : List (String × CacheEntry)}
    (hk : keysNodup c) : (expiredIds now c).Nodup :=
  List.Nodup.sublist ((List.filter_sublist c).map Prod.fst) hk

theorem entry_eq_of_key_eq {c : List (String × CacheEntry)} (hk : keysNodup c)
    {p q : String × CacheEntry} (hp : p ∈ c) (hq : q ∈ c) (h : p.1 = q.1) :
    p = q :=
  List.inj_on_of_nodup_map hk hp hq h

theorem path_ne_of_ne {c : List (String × CacheEntry)} (hp : pathsNodup c)
    {p q : String × CacheEntry} (hpc : p ∈ c) (hqc : q ∈ c) (hne : p ≠ q) :
    p.2.path ≠ q.2.path :=
  fun h => hne (List.inj_on_of_nodup_map hp hpc hqc h)

theorem evictStep_eq {s : SysState} {fid : String} {e : CacheEntry}
    (he : lookupCache s.cache fid = some e) :
    evictStep s fid = some { s with files := removeIfExists s.files e.path,
                                    cache := removeKey s.cache fid } := by
  simp [evictStep, he]

theorem foldEvict_spec (L : List String) (s : SysState)
    (hnd : L.Nodup) (hk : keysNodup s.cache)
    (hL : ∀ fid ∈ L, fid ∈ s.cache.map Prod.fst) :
    ∃ s', List.foldlM (fun st fid => evictStep st fid) s L = some s' ∧
      s'.cache = removeKeys s.cache L ∧ s'.gsLog = s.gsLog ∧
      (∀ q, q ∈ s'.files ↔
        (q ∈ s.files ∧ ∀ p ∈ s.cache, p.1 ∈ L → q ≠ p.2.path)) := by
  induction L generalizing s with
  | nil =>
      refine ⟨s, rfl, rfl, rfl, fun q => ?_⟩
      simp [removeKeys]
  | cons fid rest ih =>
      obtain ⟨e, he⟩ := lookupCache_isSome_of_mem_keys (hL fid (List.mem_cons_self _ _))
      have hstep := evictStep_eq he
      have hnd' := List.nodup_cons.mp hnd
      have hk1 : keysNodup (removeKey s.cache fid) := keysNodup_removeKey hk fid
      have hL1 : ∀ g ∈ rest,
          g ∈ (removeKey s.cache fid).map Prod.fst := by
        intro g hg
        have hgf : g ≠ fid := fun hgf => hnd'.1 (hgf ▸ hg)
        exact mem_keys_removeKey hgf (hL g (List.mem_cons_of_mem _ hg))
      obtain ⟨s', hfold, hcache, hlog, hfiles⟩ :=
        ih { s with files := removeIfExists s.files e.path,
                    cache := removeKey s.cache fid } hnd'.2 hk1 hL1
      refine ⟨s', ?_, hcache, hlog, ?_⟩
      · show List.foldlM (fun st fid => evictStep st fid) s (fid :: rest) = some s'
        rw [List.foldlM_cons, hstep]
        simpa using hfold
      · intro q
        rw [hfiles q, mem_removeIfExists]
        constructor
        · rintro ⟨⟨hqf, hqe⟩, hrest⟩
          refine ⟨hqf, ?_⟩
          intro p hp hpL
          rcases List.mem_cons.mp hpL with hpfid | hpr
          · have hpe : p = (fid, e) :=
              entry_eq_of_key_eq hk hp (lookupCache_mem he) hpfid
            rw [hpe]
            exact hqe
          · have hpf : p.1 ≠ fid := fun hpf => hnd'.1 (hpf ▸ hpr)
            exact hrest p (mem_removeKey.mpr ⟨hp, hpf⟩) hpr
        · rintro ⟨hqf, hall⟩
          refine ⟨⟨hqf, hall (fid, e) (lookupCache_mem he) (List.mem_cons_self _ _)⟩, ?_⟩
          intro p hp hpr
          obtain ⟨hpc, hpf⟩ := mem_removeKey.mp hp
          exact hall p hpc (List.mem_cons_of_mem _ hpr)

/-- Full characterization of one sweep pass over a well-formed cache: the
pass completes, the surviving mapping is exactly the non-expired part, the
expired entries' storage is gone, the surviving entries' storage is kept,
and no transform runs. -/
theorem cleanup_pass_spec (now : Int) (s : SysState)
    (hk : keysNodup s.cache) (hp : pathsNodup s.cache) :
    ∃ s', cleanup_expired_files_pass now s = some s' ∧
      (∀ fid e, lookupCache s'.cache fid = some e ↔
        (lookupCache s.cache fid = some e ∧
          now - e.timestamp ≤ CACHE_EXPIRATION_SECONDS)) ∧
      (∀ fid e, lookupCache s.cache fid = some e →
        CACHE_EXPIRATION_SECONDS < now - e.timestamp → e.path ∉ s'.files) ∧
      (∀ fid e, lookupCache s.cache fid = some e →
        now - e.timestamp ≤ CACHE_EXPIRATION_SECONDS →
        e.path ∈ s.files → e.path ∈ s'.files) ∧
      s'.gsLog = s.gsLog := by
  obtain ⟨s', hfold, hcache, hlog, hfiles⟩ :=
    foldEvict_spec (expiredIds now s.cache) s (expiredIds_nodup hk) hk
      (fun fid h => expiredIds_subset_keys h)
  refine ⟨s', hfold, ?_, ?_, ?_, hlog⟩
  · intro fid e
    constructor
    · intro h
      rw [hcache, lookupCache_removeKeys] at h
      by_cases hex : fid ∈ expiredIds now s.cache
      · rw [if_pos hex] at h
        exact absurd h (by simp)
      · rw [if_neg hex] at h
        refine ⟨h, ?_⟩
        by_contra hgt
        push_neg at hgt
        exact hex (mem_expiredIds_of_lookup h hgt)
    · rintro ⟨hl, hle⟩
      rw [hcache, lookupCache_removeKeys]
      have hex : fid ∉ expiredIds now s.cache := by
        intro hex
        obtain ⟨e', hl', hgt⟩ := (expiredIds_spec hk).mp hex
        rw [hl] at hl'
        obtain rfl : e = e' := by simpa using hl'
        exact absurd hgt (not_lt.mpr hle)
      rw [if_neg hex]
      exact hl
  · intro fid e hl hgt hmem
    have := ((hfiles e.path).mp hmem).2 (fid, e) (lookupCache_mem hl)
      (mem_expiredIds_of_lookup hl hgt)
    exact this rfl
  · intro fid e hl hle hmem
    rw [hfiles e.path]
    refine ⟨hmem, ?_⟩
    intro p hpc hpex
    obtain ⟨pk, pe⟩ := p
    obtain ⟨e', hl', hgt⟩ := (expiredIds_spec hk).mp hpex
    have hpe2 : lookupCache s.cache pk = some pe := lookupCache_of_mem_nodup hk hpc
    rw [hpe2] at hl'
    obtain rfl : pe = e' := by simpa using hl'
    have hne : (fid, e) ≠ (pk, pe) := by
      intro hcontra
      have hee : e = pe := congrArg Prod.snd hcontra
      rw [hee] at hle
      exact absurd hgt (not_lt.mpr hle)
    exact path_ne_of_ne hp (lookupCache_mem hl) hpc hne

end NewBackend

namespace NewBackend

/-! ## Claim theorems -/

theorem lookupInt_eq_none {l : List (Int × Int)} {q : Int}
    (h : ∀ p ∈ l, p.1 ≠ q) : lookupInt l q = none := by
  induction l with
  | nil => rfl
  | cons p rest ih =>
      obtain ⟨k, v⟩ := p
      simp only [lookupInt]
      rw [if_neg (h (k, v) (List.mem_cons_self _ _))]
      exact ih (fun p hp => h p (List.mem_cons_of_mem _ hp))

/-- Claim C3: for every integer quality selector in 1..10,
`get_gs_resolution` returns exactly the tier-table value
{1:72, 2:96, 3:120, 4:150, 5:200, 6:250, 7:300, 8:400, 9:500, 10:600};
for every out-of-range integer and every non-numeric selector (unparsable
string, `null`, non-scalar) it returns the single documented default of
300, and — being a total function whose `try/except` catches the only
possible exceptions — it never raises to the caller. -/
theorem C3_quality_table :
    (get_gs_resolution (.jint 1) = 72 ∧ get_gs_resolution (.jint 2) = 96 ∧
     get_gs_resolution (.jint 3) = 120 ∧ get_gs_resolution (.jint 4) = 150 ∧
     get_gs_resolution (.jint 5) = 200 ∧ get_gs_resolution (.jint 6) = 250 ∧
     get_gs_resolution (.jint 7) = 300 ∧ get_gs_resolution (.jint 8) = 400 ∧
     get_gs_resolution (.jint 9) = 500 ∧ get_gs_resolution (.jint 10) = 600) ∧
    (∀ q : Int, q < 1 ∨ 10 < q → get_gs_resolution (.jint q) = 300) ∧
    (∀ str : String, pyIntString str = none → get_gs_resolution (.jstr str) = 300) ∧
    get_gs_resolution .jnull = 300 ∧ get_gs_resolution .jother = 300 := by
  refine ⟨by decide, ?_, ?_, by decide, by decide⟩
  · intro q hq
    show (lookupInt dpi_map q).getD 300 = 300
    have hnone : lookupInt dpi_map q = none := by
      apply lookupInt_eq_none
      intro p hp
      rcases hq with hq | hq <;> fin_cases hp <;> simp <;> omega
    rw [hnone]
    rfl
  · intro str hstr
    simp [get_gs_resolution, pyInt, hstr]

/-- Witness for C3 at concrete invalid selectors: 0 is out of range and
`"abc"` is non-numeric; both resolve to the default 300. -/
theorem C3_witness :
    get_gs_resolution (.jint 0) = 300 ∧ get_gs_resolution (.jstr "abc") = 300 :=
  ⟨C3_quality_table.2.1 0 (Or.inl (by decide)),
   C3_quality_table.2.2.1 "abc" (by decide)⟩

/-- Claim C5, counterexample: eviction is not idempotent in the code.  The
sweep loop body (src/app.py 137-141) reads `TEMP_FILE_CACHE[file_id]`
without a membership guard, so evicting the same id twice in a row
performs the first eviction and then raises `KeyError` (modelled as
`none`) on the second — an error, not a no-op, contrary to the claim. -/
theorem C5_counterexample :
    evictStep exState "a" = some exStateEvicted ∧
    evictStep exStateEvicted "a" = none := by decide

/-- Claim C5, amended: after evicting a present id, the entry is gone from
the mapping and its backing storage is gone; re-running the guarded
storage delete (`if os.path.exists: os.remove`) is a no-op, as claimed;
but re-running the eviction itself raises a `KeyError` (modelled `none`)
instead of being a no-op. -/
theorem C5_amended (s : SysState) (fid : String) (e : CacheEntry)
    (h : lookupCache s.cache fid = some e) :
    ∃ s', evictStep s fid = some s' ∧
      lookupCache s'.cache fid = none ∧
      e.path ∉ s'.files ∧
      removeIfExists s'.files e.path = s'.files ∧
      evictStep s' fid = none := by
  refine ⟨_, evictStep_eq h, lookupCache_removeKey_self _ _, ?_, ?_, ?_⟩
  · intro hmem
    exact (mem_removeIfExists.mp hmem).2 rfl
  · show removeIfExists (removeIfExists s.files e.path) e.path = _
    unfold removeIfExists
    rw [if_neg]
    intro hmem
    exact (mem_removeIfExists.mp hmem).2 rfl
  · simp [evictStep, lookupCache_removeKey_self]

/-- Witness for C5 at a concrete state: the first eviction of `"a"`
succeeds. -/
theorem C5_witness : (evictStep exState "a").isSome = true := by
  obtain ⟨s', hs, -, -, -, -⟩ := C5_amended exState "a" exEntry (by decide)
  rw [hs]
  rfl

/-- Claim C6: `adjust_and_download` on an id that does not resolve in the
cache (including a missing `file_id` field) answers the 404 not-found
response and returns the state unchanged — so no transform is invoked
(`gsLog` unchanged), no transient output is created (`files` unchanged)
and the cache is untouched. -/
theorem C6_unknown_id (s : SysState) (r : AdjustReq)
    (h : ∀ fid, r.file_id = some fid → lookupCache s.cache fid = none) :
    adjust_and_download s r = (AResp.notFound, s) := by
  cases hf : r.file_id with
  | none => simp [adjust_and_download, hf]
  | some fid =>
      by_cases hfe : fid = ""
      · simp [adjust_and_download, hf, hfe]
      · simp [adjust_and_download, hf, hfe, h fid hf]

/-- Witness for C6 at a concrete state and an id absent from the cache. -/
theorem C6_witness :
    adjust_and_download exState exAdjustMissing = (AResp.notFound, exState) :=
  C6_unknown_id exState exAdjustMissing (fun fid hfid => by
    obtain rfl : "zz" = fid := by simpa [exAdjustMissing] using hfid
    decide)

/-- Claim C7: on every execution of `adjust_and_download` that passes the
id lookup, the transient output path is absent from the filesystem in the
final state — the `finally:` block removes it after the response is
produced on success and also when the transform fails or times out. -/
theorem C7_transient_cleanup (s : SysState) (r : AdjustReq) (fid : String)
    (entry : CacheEntry) (hf : r.file_id = some fid) (hfe : fid ≠ "")
    (hl : lookupCache s.cache fid = some entry) :
    r.adjusted_path ∉ (adjust_and_download s r).2.files := by
  have hshape : (adjust_and_download s r).2.files =
      removeIfExists
        ((run_ghostscript s entry.path r.adjusted_path
          (get_gs_resolution (r.quality.getD (JVal.jstr "7"))) r.gs).1).files
        r.adjusted_path := by
    cases hgs : r.gs <;> simp [adjust_and_download, hf, hfe, hl, hgs]
  rw [hshape]
  intro hmem
  exact (mem_removeIfExists.mp hmem).2 rfl

/-- Witness for C7 at a concrete valid derive call. -/
theorem C7_witness : "adj.pdf" ∉ (adjust_and_download exState exAdjustOk).2.files :=
  C7_transient_cleanup exState exAdjustOk "a" exEntry (by decide) (by decide)
    (by decide)

/-- Claim C8: `adjust_and_download` never mutates the cache mapping — on
every path (missing id, unknown id, success, transform failure) the
`cache` component of the final state is exactly the initial one, so the
looked-up entry's `timestamp` and baseline `path` are identical before and
after the call and expiration stays purely creation-time-based. -/
theorem C8_pure_read (s : SysState) (r : AdjustReq) :
    (adjust_and_download s r).2.cache = s.cache := by
  cases hf : r.file_id with
  | none => simp [adjust_and_download, hf]
  | some fid =>
      by_cases hfe : fid = ""
      · simp [adjust_and_download, hf, hfe]
      · cases hl : lookupCache s.cache fid with
        | none => simp [adjust_and_download, hf, hfe, hl]
        | some entry =>
            cases hgs : r.gs <;>
              simp [adjust_and_download, hf, hfe, hl, hgs, run_ghostscript]

end NewBackend

namespace NewBackend

theorem mem_run_ghostscript_files {s : SysState} {input output : String}
    {resolution : Int} {gs : GsOutcome} {q : String} (h : q ∈ s.files) :
    q ∈ ((run_ghostscript s input output resolution gs).1).files := by
  cases gs with
  | ok => exact mem_createFile.mpr (Or.inl h)
  | fail b =>
      cases b
      · simpa [run_ghostscript] using h
      · simpa [run_ghostscript] using mem_createFile.mpr (Or.inl h)

/-- Claim C1, counterexample: the coherence invariant is violated at a
point the sweep makes observable.  Starting from an invariant-satisfying
state with one expired entry, the sweep collects exactly that id and its
eviction removes the backing file first (src/app.py line 140) and only
then deletes the mapping entry (line 141); at the intermediate point
`evictMid` the entry is still visible in the mapping while its backing
storage is already released, so a concurrently running lookup (the sweeper
is a separate thread from the request handlers) can observe a mapping
entry whose storage is gone. -/
theorem C1_counterexample :
    cacheStorageInv exState ∧
    expiredIds 4000 exState.cache = ["a"] ∧
    evictMid exState "a" = some exStateMid ∧
    (lookupCache exStateMid.cache "a").isSome = true ∧
    ¬ cacheStorageInv exStateMid := by decide

/-- Claim C1, amended: the coherence invariant is preserved at operation
boundaries — a completed `compress_initial` (with fresh temp paths), a
completed `adjust_and_download` (with a fresh transient path), and a
completed sweep pass over a well-formed cache all map
invariant-satisfying states to invariant-satisfying states; only the
interior point of a sweep eviction (between the storage release and the
mapping delete, exhibited by the counterexample) violates it. -/
theorem C1_amended_boundary_invariant :
    (∀ s r, cacheStorageInv s → r.baseline_path ≠ r.original_path →
      (∀ p ∈ s.cache, p.2.path ≠ r.original_path) →
      cacheStorageInv (compress_initial s r).2) ∧
    (∀ s r, cacheStorageInv s → (∀ p ∈ s.cache, p.2.path ≠ r.adjusted_path) →
      cacheStorageInv (adjust_and_download s r).2) ∧
    (∀ now s s', keysNodup s.cache → pathsNodup s.cache → cacheStorageInv s →
      cleanup_expired_files_pass now s = some s' → cacheStorageInv s') := by
  refine ⟨?_, ?_, ?_⟩
  · intro s r hinv hbo hfresh
    cases hpdf : r.hasPdf with
    | false => simpa [compress_initial, hpdf] using hinv
    | true =>
        cases hgs : r.gs with
        | ok =>
            have hshape : (compress_initial s r).2 =
                { s with
                  cache := setKey s.cache r.file_id ⟨r.baseline_path, r.now⟩,
                  files := removeIfExists
                    (createFile (createFile s.files r.original_path) r.baseline_path)
                    r.original_path,
                  gsLog := s.gsLog ++ [⟨r.original_path, r.baseline_path, 300⟩] } := by
              simp [compress_initial, hpdf, hgs, run_ghostscript]
            rw [hshape]
            intro p hp
            rcases List.mem_cons.mp hp with rfl | hp
            · exact mem_removeIfExists.mpr ⟨mem_createFile.mpr (Or.inr rfl), hbo⟩
            · obtain ⟨hpc, -⟩ := mem_removeKey.mp hp
              exact mem_removeIfExists.mpr
                ⟨mem_createFile.mpr (Or.inl (mem_createFile.mpr (Or.inl (hinv p hpc)))),
                 hfresh p hpc⟩
        | fail b =>
            have hshape : (compress_initial s r).2 =
                { s with
                  files := removeIfExists
                    (if b then createFile (createFile s.files r.original_path) r.baseline_path
                     else createFile s.files r.original_path) r.original_path,
                  gsLog := s.gsLog ++ [⟨r.original_path, r.baseline_path, 300⟩] } := by
              cases b <;> simp [compress_initial, hpdf, hgs, run_ghostscript]
            rw [hshape]
            intro p hp
            refine mem_removeIfExists.mpr ⟨?_, hfresh p hp⟩
            cases b
            · rw [if_neg Bool.false_ne_true]
              exact mem_createFile.mpr (Or.inl (hinv p hp))
            · rw [if_pos rfl]
              exact mem_createFile.mpr (Or.inl (mem_createFile.mpr (Or.inl (hinv p hp))))
  · intro s r hinv hfresh
    cases hf : r.file_id with
    | none => simpa [adjust_and_download, hf] using hinv
    | some fid =>
        by_cases hfe : fid = ""
        · simpa [adjust_and_download, hf, hfe] using hinv
        · cases hl : lookupCache s.cache fid with
          | none => simpa [adjust_and_download, hf, hfe, hl] using hinv
          | some entry =>
              have hshape : (adjust_and_download s r).2 =
                  { s with
                    files := removeIfExists
                      ((run_ghostscript s entry.path r.adjusted_path
                        (get_gs_resolution (r.quality.getD (JVal.jstr "7"))) r.gs).1).files
                      r.adjusted_path,
                    gsLog := s.gsLog ++ [⟨entry.path, r.adjusted_path,
                      get_gs_resolution (r.quality.getD (JVal.jstr "7"))⟩] } := by
                cases hgs : r.gs <;>
                  simp [adjust_and_download, hf, hfe, hl, hgs, run_ghostscript]
              rw [hshape]
              intro p hp
              exact mem_removeIfExists.mpr
                ⟨mem_run_ghostscript_files (hinv p hp), hfresh p hp⟩
  · intro now s s' hk hp hinv hpass
    obtain ⟨s0, hfold, hcache, hlog, hfiles⟩ :=
      foldEvict_spec (expiredIds now s.cache) s (expiredIds_nodup hk) hk
        (fun fid h => expiredIds_subset_keys h)
    have h2 : (some s0 : Option SysState) = some s' := hfold.symm.trans hpass
    obtain rfl : s0 = s' := Option.some.inj h2
    intro p hpm
    rw [hcache] at hpm
    obtain ⟨hpc, hpL⟩ := mem_removeKeys.mp hpm
    rw [hfiles]
    refine ⟨hinv p hpc, ?_⟩
    intro q hqc hqL
    have hne : p ≠ q := fun h => hpL (by rw [h]; exact hqL)
    exact path_ne_of_ne hp hpc hqc hne

/-- Witness for the amended C1 at concrete inputs: a successful upload, a
successful derive and a completed sweep, each started from an
invariant-satisfying state, end in invariant-satisfying states. -/
theorem C1_witness :
    cacheStorageInv (compress_initial exState exUploadOk).2 ∧
    cacheStorageInv (adjust_and_download exState exAdjustOk).2 ∧
    cacheStorageInv exStateEvicted :=
  ⟨C1_amended_boundary_invariant.1 exState exUploadOk (by decide) (by decide) (by decide),
   C1_amended_boundary_invariant.2.1 exState exAdjustOk (by decide) (by decide),
   C1_amended_boundary_invariant.2.2 4000 exState exStateEvicted (by decide) (by decide)
     (by decide) (by decide)⟩

/-- Claim C2, counterexample: a failing `compress_initial` does leak a
half-written baseline file.  With the transform failing after creating
(part of) its output (`GsOutcome.fail true` — e.g. a timeout that kills
ghostscript mid-write), the handler answers 500 but neither the `except`
nor the `finally` block removes `baseline_path`, so the file is still
present in the final state, contrary to the claim that no partially
produced baseline file is left behind. -/
theorem C2_counterexample :
    (compress_initial emptyState exUploadFail).1 = CResp.serverError ∧
    "base2.pdf" ∈ (compress_initial emptyState exUploadFail).2.files := by decide

/-- Claim C2, amended: on every failing `compress_initial` (the transform
raised), the response is the 500 error, no cache entry is registered (the
mapping is exactly unchanged), and the raw-input scratch file is released;
but the partially produced baseline file is only absent when the failed
transform never wrote it — the failure path does not remove it. -/
theorem C2_amended_atomicity (s : SysState) (r : UploadReq) (b : Bool)
    (hpdf : r.hasPdf = true) (hgs : r.gs = .fail b) :
    (compress_initial s r).1 = CResp.serverError ∧
    (compress_initial s r).2.cache = s.cache ∧
    r.original_path ∉ (compress_initial s r).2.files ∧
    (b = false → r.baseline_path ∉ s.files →
      r.baseline_path ∉ (compress_initial s r).2.files) := by
  have hshape : compress_initial s r =
      (CResp.serverError,
        { s with
          files := removeIfExists
            (if b then createFile (createFile s.files r.original_path) r.baseline_path
             else createFile s.files r.original_path) r.original_path,
          gsLog := s.gsLog ++ [⟨r.original_path, r.baseline_path, 300⟩] }) := by
    cases b <;> simp [compress_initial, hpdf, hgs, run_ghostscript]
  rw [hshape]
  refine ⟨rfl, rfl, ?_, ?_⟩
  · intro hmem
    exact (mem_removeIfExists.mp hmem).2 rfl
  · rintro rfl hbase hmem
    rw [if_neg Bool.false_ne_true] at hmem
    obtain ⟨hmem1, hne⟩ := mem_removeIfExists.mp hmem
    rcases mem_createFile.mp hmem1 with h | h
    · exact hbase h
    · exact hne h

/-- Witness for the amended C2 at a concrete failing upload. -/
theorem C2_witness :
    (compress_initial emptyState exUploadFail).1 = CResp.serverError ∧
    "orig.pdf" ∉ (compress_initial emptyState exUploadFail).2.files := by
  obtain ⟨h1, h2, h3, h4⟩ :=
    C2_amended_atomicity emptyState exUploadFail true (by decide) (by decide)
  exact ⟨h1, h3⟩

/-- Claim C4: one sweep pass over a well-formed cache state (distinct dict
keys, distinct backing paths — both true of every state the program
builds) completes and evicts exactly the entries older than the fixed TTL
of 3600 seconds: an id remains resolvable after the pass iff it was
resolvable before with age `now - createdAt ≤ 3600`; every evicted
entry's backing storage is released; every surviving entry's backing
storage is retained. -/
theorem C4_sweep_selection (now : Int) (s : SysState)
    (hk : keysNodup s.cache) (hp : pathsNodup s.cache) :
    ∃ s', cleanup_expired_files_pass now s = some s' ∧
      (∀ fid e, lookupCache s'.cache fid = some e ↔
        (lookupCache s.cache fid = some e ∧
          now - e.timestamp ≤ CACHE_EXPIRATION_SECONDS)) ∧
      (∀ fid e, lookupCache s.cache fid = some e →
        CACHE_EXPIRATION_SECONDS < now - e.timestamp → e.path ∉ s'.files) ∧
      (∀ fid e, lookupCache s.cache fid = some e →
        now - e.timestamp ≤ CACHE_EXPIRATION_SECONDS →
        e.path ∈ s.files → e.path ∈ s'.files) := by
  obtain ⟨s', h1, h2, h3, h4, h5⟩ := cleanup_pass_spec now s hk hp
  exact ⟨s', h1, h2, h3, h4⟩

/-- Witness for C4: a concrete sweep at time 4000 over a cache holding an
expired entry (age 4000) and a fresh one (age 1000) completes. -/
theorem C4_witness : (cleanup_expired_files_pass 4000 exSweepState).isSome = true := by
  obtain ⟨s', hs, -, -, -⟩ := C4_sweep_selection 4000 exSweepState (by decide) (by decide)
  rw [hs]
  rfl

/-- Claim C9: every successful `compress_initial` invokes the transform
exactly once, on the saved upload, with the constant baseline resolution
300, and registers the produced baseline (not the upload) under the fresh
id; every `adjust_and_download` that passes the lookup invokes the
transform exactly once with the cached entry's baseline path as input —
never the original upload, which is no longer referenced by the cache. -/
theorem C9_fixed_baseline :
    (∀ s r, r.hasPdf = true → r.gs = .ok →
      (compress_initial s r).2.gsLog =
        s.gsLog ++ [⟨r.original_path, r.baseline_path, 300⟩] ∧
      lookupCache (compress_initial s r).2.cache r.file_id =
        some ⟨r.baseline_path, r.now⟩) ∧
    (∀ s r fid entry, r.file_id = some fid → fid ≠ "" →
      lookupCache s.cache fid = some entry →
      (adjust_and_download s r).2.gsLog =
        s.gsLog ++ [⟨entry.path, r.adjusted_path,
          get_gs_resolution (r.quality.getD (JVal.jstr "7"))⟩]) := by
  constructor
  · intro s r hpdf hgs
    constructor
    · simp [compress_initial, hpdf, hgs, run_ghostscript]
    · simp [compress_initial, hpdf, hgs, run_ghostscript, lookupCache_setKey_self]
  · intro s r fid entry hf hfe hl
    cases hgs : r.gs <;>
      simp [adjust_and_download, hf, hfe, hl, hgs, run_ghostscript]

/-- Witness for C9: a concrete successful upload logs exactly one
transform call at resolution 300 on the upload, and a concrete derive
logs exactly one transform call on the cached baseline path. -/
theorem C9_witness :
    (compress_initial emptyState exUploadOk).2.gsLog =
      emptyState.gsLog ++ [⟨exUploadOk.original_path, exUploadOk.baseline_path, 300⟩] ∧
    (adjust_and_download exState exAdjustOk).2.gsLog =
      exState.gsLog ++ [⟨exEntry.path, exAdjustOk.adjusted_path,
        get_gs_resolution (exAdjustOk.quality.getD (JVal.jstr "7"))⟩] :=
  ⟨(C9_fixed_baseline.1 emptyState exUploadOk (by decide) (by decide)).1,
   C9_fixed_baseline.2 exState exAdjustOk "a" exEntry (by decide) (by decide) (by decide)⟩

/-- Claim C10: a derive request that omits the quality field entirely is
processed with the default selector string `'7'`, so the transform runs at
resolution 300 — the same value as the invalid-selector fallback — and the
request is served (resolution-tagged filename), not rejected. -/
theorem C10_default_quality (s : SysState) (r : AdjustReq) (fid : String)
    (entry : CacheEntry) (hq : r.quality = none) (hf : r.file_id = some fid)
    (hfe : fid ≠ "") (hl : lookupCache s.cache fid = some entry)
    (hgs : r.gs = .ok) :
    get_gs_resolution (r.quality.getD (JVal.jstr "7")) = 300 ∧
    get_gs_resolution JVal.jnull = 300 ∧
    (adjust_and_download s r).1 = AResp.fileResp "compressed-300dpi.pdf" ∧
    (adjust_and_download s r).2.gsLog =
      s.gsLog ++ [⟨entry.path, r.adjusted_path, 300⟩] := by
  have h7 : get_gs_resolution (JVal.jstr "7") = 300 := by decide
  refine ⟨by rw [hq]; exact h7, by decide, ?_, ?_⟩
  · simp only [adjust_and_download, hf, hfe, hl, hgs, hq, run_ghostscript, h7]
    simp [hfe, h7]
    decide
  · simp [adjust_and_download, hf, hfe, hl, hgs, hq, run_ghostscript, h7]

/-- Witness for C10 at a concrete derive request with no quality field. -/
theorem C10_witness :
    (adjust_and_download exState exAdjustNoQuality).1 =
      AResp.fileResp "compressed-300dpi.pdf" :=
  (C10_default_quality exState exAdjustNoQuality "a" exEntry (by decide) (by decide)
    (by decide) (by decide) (by decide)).2.2.1

end NewBackend
